import Mathlib

/-!
Shallow embedding of the contact-book program (src/main.py): field
validators (Phone, Birthday), contact records, the address book, the
upcoming-birthday query and the dispatcher handlers wrapped by the
input_error decorator.  Machine strings are Lean strings; dates are
triples of naturals; fallible Python code (raising ValueError or
KeyError) is embedded with Except.  The implicit clock used by
get_upcoming_birthdays is made an explicit today parameter.
-/

namespace ContactsHW

/-- Boolean test that a character code point lies in a closed range. -/
def charIn (lo hi c : Char) : Bool :=
  decide (lo.toNat ≤ c.toNat ∧ c.toNat ≤ hi.toNat)

/-- Fragment of the Unicode decimal-digit characters (category Nd) that the
Python functions int and re treat as digits.  The full Unicode table is
huge; this embedding covers the ASCII digits together with two further
decimal scripts (Arabic-Indic U+0660..U+0669 and fullwidth U+FF10..U+FF19)
that CPython also accepts, which suffices to witness the divergences the
claims are about. -/
def pyIsDecimal (c : Char) : Bool :=
  charIn '0' '9' c || charIn '٠' '٩' c || charIn '０' '９' c

/-- Characters accepted by the Python method str.isdigit: all decimal
digits plus characters of Numeric_Type Digit such as the superscripts
U+00B9, U+00B2, U+00B3 (again a representative fragment of the table). -/
def pyIsDigit (c : Char) : Bool :=
  pyIsDecimal c || c == '¹' || c == '²' || c == '³'

/-- Numeric value of a decimal digit character, as used by the Python int
conversion inside strptime. -/
def toDecVal (c : Char) : Nat :=
  if charIn '0' '9' c then c.toNat - '0'.toNat
  else if charIn '٠' '٩' c then c.toNat - '٠'.toNat
  else if charIn '０' '９' c then c.toNat - '０'.toNat
  else 0

/-- Python str.isdigit: nonempty and every character is a digit. -/
def pyStrIsdigit (s : String) : Bool :=
  !s.data.isEmpty && s.data.all pyIsDigit

/-- Message of the ValueError raised by Phone.__init__ (main.py line 20). -/
def phoneErrMsg : String := "Phone number must contain exactly 10 digits"

/-- Validation test of Phone.__init__ (main.py lines 18-21):
value.isdigit() and len(value) == 10. -/
def validPhoneB (s : String) : Bool :=
  pyStrIsdigit s && s.length == 10

/-- Phone.__init__ : stores the raw string verbatim when the test passes,
raises ValueError otherwise. -/
def validatePhone (s : String) : Except String String :=
  if validPhoneB s then .ok s else .error phoneErrMsg

/-- Calendar date, mirroring datetime.date fields. -/
structure SDate where
  year : Nat
  month : Nat
  day : Nat
  deriving DecidableEq, Repr

/-- Gregorian leap-year rule, as in the datetime module. -/
def isLeapB (y : Nat) : Bool :=
  (y % 4 == 0 && y % 100 != 0) || y % 400 == 0

/-- Length of a month, as in the datetime module. -/
def daysInMonth (y m : Nat) : Nat :=
  if m == 2 then (if isLeapB y then 29 else 28)
  else if m == 4 || m == 6 || m == 9 || m == 11 then 30
  else 31

/-- Days in all years before year y (proleptic Gregorian), matching the
CPython helper behind date.toordinal. -/
def daysBeforeYear (y : Nat) : Nat :=
  365 * (y - 1) + (y - 1) / 4 - (y - 1) / 100 + (y - 1) / 400

/-- Days in all months of year y strictly before month m. -/
def daysBeforeMonth (y : Nat) : Nat → Nat
  | 0 => 0
  | 1 => 0
  | m + 1 => daysBeforeMonth y m + daysInMonth y m

/-- date.toordinal: day number with 0001-01-01 as day 1. -/
def toOrdinal (d : SDate) : Nat :=
  daysBeforeYear d.year + daysBeforeMonth d.year d.month + d.day

/-- date.weekday: Monday is 0 .. Sunday is 6.  Day 1 was a Monday. -/
def weekdayOf (d : SDate) : Nat := (toOrdinal d + 6) % 7

/-- Comparison of datetime.date values: lexicographic on (y, m, d). -/
def dateLtB (a b : SDate) : Bool :=
  decide (a.year < b.year) ||
    (a.year == b.year &&
      (decide (a.month < b.month) ||
        (a.month == b.month && decide (a.day < b.day))))

/-- Successor of a calendar date. -/
def nextDay (d : SDate) : SDate :=
  if d.day < daysInMonth d.year d.month then ⟨d.year, d.month, d.day + 1⟩
  else if d.month < 12 then ⟨d.year, d.month + 1, 1⟩
  else ⟨d.year + 1, 1, 1⟩

/-- Addition of a timedelta of k whole days to a date. -/
def addDays : SDate → Nat → SDate
  | d, 0 => d
  | d, k + 1 => addDays (nextDay d) k

/-- Field check of the datetime.date constructor: year in 1..9999, month
in 1..12, day within the month. -/
def pyDateOK (y m d : Nat) : Bool :=
  decide (1 ≤ y ∧ y ≤ 9999 ∧ 1 ≤ m ∧ m ≤ 12 ∧ 1 ≤ d ∧ d ≤ daysInMonth y m)

/-- date.replace(year=y): rebuilds the date with the new year, re-running
the constructor checks; raises ValueError when the resulting triple is not
a real date (main.py lines 87 and 90 hit this on a Feb 29 birthday). -/
def dateReplaceYear (bd : SDate) (y : Nat) : Except String SDate :=
  if y < 1 ∨ 9999 < y then .error "year must be in 1..9999"
  else if bd.month < 1 ∨ 12 < bd.month then .error "month must be in 1..12"
  else if daysInMonth y bd.month < bd.day then .error "day is out of range for month"
  else .ok ⟨y, bd.month, bd.day⟩

/-- Two-digit zero padding, as strftime %d and %m produce. -/
def pad2 (n : Nat) : String :=
  if n < 10 then "0" ++ toString n else toString n

/-- Four-digit zero padding for the year, as strftime %Y produces. -/
def pad4 (n : Nat) : String :=
  if n < 10 then "000" ++ toString n
  else if n < 100 then "00" ++ toString n
  else if n < 1000 then "0" ++ toString n
  else toString n

/-- strftime("%d.%m.%Y"). -/
def formatDate (d : SDate) : String :=
  pad2 d.day ++ "." ++ pad2 d.month ++ "." ++ pad4 d.year

/-- Splits a character list at every dot, keeping empty segments, the way
the literal dots of the strptime format "%d.%m.%Y" partition the input. -/
def splitDots : List Char → List (List Char)
  | [] => [[]]
  | c :: rest =>
    if c = '.' then [] :: splitDots rest
    else
      match splitDots rest with
      | [] => [[c]]
      | h :: t => (c :: h) :: t

/-- Joins segments back with dots; inverse of splitDots. -/
def joinDots : List (List Char) → List Char
  | [] => []
  | [a] => a
  | a :: b :: t => a ++ '.' :: joinDots (b :: t)

/-- Day field of the strptime regex for %d, which is the alternation
(3[01]|[12]d|0[1-9]|[1-9]) where d stands for any decimal digit; the
whole field must be consumed because a literal dot follows. -/
def dayPat : List Char → Bool
  | [c] => charIn '1' '9' c
  | [c0, c1] =>
    (c0 == '3' && (c1 == '0' || c1 == '1')) ||
      ((c0 == '1' || c0 == '2') && pyIsDecimal c1) ||
      (c0 == '0' && charIn '1' '9' c1)
  | _ => false

/-- Month field of the strptime regex for %m: (1[0-2]|0[1-9]|[1-9]). -/
def monthPat : List Char → Bool
  | [c] => charIn '1' '9' c
  | [c0, c1] =>
    (c0 == '1' && (c1 == '0' || c1 == '1' || c1 == '2')) ||
      (c0 == '0' && charIn '1' '9' c1)
  | _ => false

/-- Year field of the strptime regex for %Y: exactly four decimal digits. -/
def yearPat (l : List Char) : Bool :=
  l.length == 4 && l.all pyIsDecimal

/-- Numeric value of a digit string, as the int conversion in strptime. -/
def valOf (l : List Char) : Nat :=
  l.foldl (fun a c => 10 * a + toDecVal c) 0

/-- Combined acceptance test for the three fields cut out of the input:
the three regex groups must each consume their whole segment, and the
datetime constructor then validates the resulting numbers. -/
def fieldsOK (dp mp yp : List Char) : Bool :=
  dayPat dp && monthPat mp && yearPat yp &&
    pyDateOK (valOf yp) (valOf mp) (valOf dp)

/-- datetime.strptime(raw, "%d.%m.%Y") reduced to its value: the anchored
regex forces the input to be day-dot-month-dot-year with nothing left over,
which is exactly a three-way dot split whose parts pass the field tests. -/
def parseDDMMYYYY (raw : String) : Option SDate :=
  match splitDots raw.data with
  | [dp, mp, yp] =>
    if fieldsOK dp mp yp then some ⟨valOf yp, valOf mp, valOf dp⟩ else none
  | _ => none

/-- Message of the ValueError raised by Birthday.__init__ (main.py 29). -/
def bdayErrMsg : String := "Invalid date format. Use DD.MM.YYYY"

/-- Birthday.__init__ (main.py lines 25-30): strptime is run only as a
check; on success the raw string itself is stored verbatim. -/
def validateBirthday (raw : String) : Except String String :=
  if (parseDDMMYYYY raw).isSome then .ok raw else .error bdayErrMsg

/-- Contact record: name, ordered phone list, optional stored birthday
string (Record.__init__, main.py lines 33-37). -/
structure Record where
  name : String
  phones : List String
  birthday : Option String
  deriving DecidableEq, Repr

/-- Record.add_phone (main.py 39-40): Phone(phone) is evaluated before the
append, so a validation error leaves the list untouched. -/
def Record.add_phone (r : Record) (p : String) : Except String Unit × Record :=
  match validatePhone p with
  | .ok v => (.ok (), ⟨r.name, r.phones ++ [v], r.birthday⟩)
  | .error e => (.error e, r)

/-- Record.remove_phone (main.py 42-43): drops every equal phone. -/
def Record.remove_phone (r : Record) (p : String) : Record :=
  ⟨r.name, r.phones.filter (fun q => q != p), r.birthday⟩

/-- Loop body of Record.edit_phone: walks the list, and at the first match
builds Phone(new) (which may raise) and replaces that entry; falls off the
end with the ValueError("Phone not found"). -/
def editPhoneList (old new : String) : List String → Except String (List String)
  | [] => .error "Phone not found"
  | p :: rest =>
    if p == old then
      match validatePhone new with
      | .ok v => .ok (v :: rest)
      | .error e => .error e
    else
      match editPhoneList old new rest with
      | .ok ps => .ok (p :: ps)
      | .error e => .error e

/-- Record.edit_phone (main.py 45-50); on an error the record state is the
original one, because Phone(new_phone) is evaluated before the list
assignment and the loop performs no other mutation. -/
def Record.edit_phone (r : Record) (old new : String) : Except String Unit × Record :=
  match editPhoneList old new r.phones with
  | .ok ps => (.ok (), ⟨r.name, ps, r.birthday⟩)
  | .error e => (.error e, r)

/-- Record.find_phone (main.py 52-56). -/
def Record.find_phone (r : Record) (p : String) : Option String :=
  r.phones.find? (fun q => q == p)

/-- Record.add_birthday (main.py 58-59): overwrites the stored birthday
when validation passes, otherwise the ValueError propagates. -/
def Record.add_birthday (r : Record) (braw : String) : Except String Unit × Record :=
  match validateBirthday braw with
  | .ok v => (.ok (), ⟨r.name, r.phones, some v⟩)
  | .error e => (.error e, r)

/-- The "; ".join of the phone values (main.py 62). -/
def joinSemis : List String → String
  | [] => ""
  | [p] => p
  | p :: q :: rest => p ++ "; " ++ joinSemis (q :: rest)

/-- Birthday part of Record.__str__: the stored string, or the Python
rendering None of the missing value (main.py 63). -/
def bdayStrOf : Option String → String
  | none => "None"
  | some s => s

/-- Record.__str__ (main.py 61-64). -/
def renderRecord (r : Record) : String :=
  "Contact name: " ++ r.name ++ ", phones: " ++ joinSemis r.phones ++
    ", birthday: " ++ bdayStrOf r.birthday

/-- The address book: a name-keyed insertion-ordered mapping.  A Python
dict keyed by record.name.value is embedded as the ordered list of its
records; overwriting an existing key keeps its position, a new key is
appended, deletion removes the entry. -/
abbrev AddressBook := List Record

/-- AddressBook.add_record (main.py 68-69): data[record.name.value] = record. -/
def AddressBook.add_record (book : AddressBook) (r : Record) : AddressBook :=
  if book.any (fun x => x.name == r.name)
  then book.map (fun x => if x.name == r.name then r else x)
  else book ++ [r]

/-- AddressBook.find (main.py 71-72): data.get(name). -/
def AddressBook.find (book : AddressBook) (name : String) : Option Record :=
  book.find? (fun x => x.name == name)

/-- AddressBook.delete (main.py 74-76). -/
def AddressBook.delete (book : AddressBook) (name : String) : AddressBook :=
  book.filter (fun x => x.name != name)

/-- One emitted row of get_upcoming_birthdays: the dict with keys name and
birthday (main.py 101-104); birthday holds the formatted congratulation
date. -/
structure BdEntry where
  name : String
  birthday : String
  deriving DecidableEq, Repr

/-- Lines 87-90 of main.py: bday.replace(year=today.year), advanced to the
next year exactly when the result is strictly before today.  Either
replace can raise for a Feb 29 birthday. -/
def occurrenceOf (today bd : SDate) : Except String SDate :=
  match dateReplaceYear bd today.year with
  | .error e => .error e
  | .ok o => if dateLtB o today then dateReplaceYear bd (today.year + 1) else .ok o

/-- Lines 95-99 of main.py: push a Saturday occurrence 2 days and a Sunday
occurrence 1 day forward, only for the reported date. -/
def weekendShift (d : SDate) : SDate :=
  if weekdayOf d == 5 then addDays d 2
  else if weekdayOf d == 6 then addDays d 1
  else d

/-- Whole-day difference (bday_this_year - today).days of line 92. -/
def deltaDays (today occ : SDate) : Int :=
  (toOrdinal occ : Int) - (toOrdinal today : Int)

/-- Body of the loop of get_upcoming_birthdays (main.py 82-104) for one
record: skip birthday-less records, re-parse the stored string, build the
occurrence, and emit the shifted date when 0 <= delta <= 7. -/
def processRecord (today : SDate) (r : Record) : Except String (Option BdEntry) :=
  match r.birthday with
  | none => .ok none
  | some raw =>
    match parseDDMMYYYY raw with
    | none => .error "time data does not match format %d.%m.%Y"
    | some bd =>
      match occurrenceOf today bd with
      | .error e => .error e
      | .ok occ =>
        if 0 ≤ deltaDays today occ ∧ deltaDays today occ ≤ 7
        then .ok (some ⟨r.name, formatDate (weekendShift occ)⟩)
        else .ok none

/-- AddressBook.get_upcoming_birthdays (main.py 78-106) with the implicit
datetime.today() made an explicit parameter; iterates the records in book
order, appending the produced rows, and lets a ValueError from the date
construction escape. -/
def AddressBook.get_upcoming_birthdays (today : SDate) : AddressBook → Except String (List BdEntry)
  | [] => .ok []
  | r :: rest =>
    match processRecord today r with
    | .error e => .error e
    | .ok none => AddressBook.get_upcoming_birthdays today rest
    | .ok (some en) =>
      match AddressBook.get_upcoming_birthdays today rest with
      | .error e => .error e
      | .ok tl => .ok (en :: tl)

/-- Replaces the phone list of the record stored under name, in place at
its position: the effect of mutating the found record object. -/
def replacePhones (book : AddressBook) (name : String) (ps : List String) : AddressBook :=
  book.map (fun x => if x.name == name then ⟨x.name, ps, x.birthday⟩ else x)

/-- Overwrites the birthday of the record stored under name, in place. -/
def setBirthdayIn (book : AddressBook) (name braw : String) : AddressBook :=
  book.map (fun x => if x.name == name then ⟨x.name, x.phones, some braw⟩ else x)

/-- Message of the ValueError raised by sequence unpacking of the argument
list, as produced by CPython and returned by the input_error wrapper. -/
def unpackErr (expected got : Nat) : String :=
  if got < expected
  then "not enough values to unpack (expected " ++ toString expected ++
    ", got " ++ toString got ++ ")"
  else "too many values to unpack (expected " ++ toString expected ++ ")"

/-- Handler add_contact (main.py 130-140) with the input_error wrapper
inlined: the unpack failure and the Phone ValueError become returned
messages.  In the new-name branch the record is inserted before the phone
is validated, so a bad phone still leaves the fresh empty record stored. -/
def add_contact (args : List String) (book : AddressBook) : String × AddressBook :=
  match args with
  | [name, phone] =>
    match AddressBook.find book name with
    | none =>
      if validPhoneB phone
      then ("Contact added.", AddressBook.add_record book ⟨name, [phone], none⟩)
      else (phoneErrMsg, AddressBook.add_record book ⟨name, [], none⟩)
    | some r =>
      if validPhoneB phone
      then ("Contact updated.", replacePhones book name (r.phones ++ [phone]))
      else (phoneErrMsg, book)
  | other => (unpackErr 2 other.length, book)

/-- Handler change_contact (main.py 143-150) with the wrapper inlined:
the KeyError for an absent record and the two edit_phone ValueErrors
become returned messages. -/
def change_contact (args : List String) (book : AddressBook) : String × AddressBook :=
  match args with
  | [name, oldp, newp] =>
    match AddressBook.find book name with
    | none => ("Contact not found.", book)
    | some r =>
      match editPhoneList oldp newp r.phones with
      | .ok ps => ("Phone updated.", replacePhones book name ps)
      | .error e => (e, book)
  | other => (unpackErr 3 other.length, book)

/-- Handler show_phone (main.py 153-159): args[0] raises IndexError on an
empty argument list, which the wrapper maps to the fixed message. -/
def show_phone (args : List String) (book : AddressBook) : String :=
  match args with
  | [] => "Not enough arguments."
  | name :: _ =>
    match AddressBook.find book name with
    | none => "Contact not found."
    | some r => joinSemis r.phones

/-- Handler add_birthday (main.py 167-174) with the wrapper inlined. -/
def add_birthday (args : List String) (book : AddressBook) : String × AddressBook :=
  match args with
  | [name, braw] =>
    match AddressBook.find book name with
    | none => ("Contact not found.", book)
    | some _ =>
      if (parseDDMMYYYY braw).isSome
      then ("Birthday added.", setBirthdayIn book name braw)
      else (bdayErrMsg, book)
  | other => (unpackErr 2 other.length, book)

/-- Handler show_birthday (main.py 177-183). -/
def show_birthday (args : List String) (book : AddressBook) : String :=
  match args with
  | [] => "Not enough arguments."
  | name :: _ =>
    match AddressBook.find book name with
    | none => "Birthday not set."
    | some r =>
      match r.birthday with
      | none => "Birthday not set."
      | some b => b

/-- Stored-phone well-formedness in the sense the code actually enforces:
ten characters, each a Python digit. -/
def PhoneOK (p : String) : Prop :=
  p.length = 10 ∧ ∀ c ∈ p.data, pyIsDigit c = true

/-- Every phone of the record is well formed. -/
def RecordOK (r : Record) : Prop := ∀ p ∈ r.phones, PhoneOK p

/-- Every record of the book is well formed. -/
def BookOK (book : AddressBook) : Prop := ∀ r ∈ book, RecordOK r

/-- A stored birthday, when present, is a string the validator accepted. -/
def BirthdayOK : Option String → Prop
  | none => True
  | some raw => (parseDDMMYYYY raw).isSome = true

/-- Records reachable through the validated mutators: valid phones and a
valid optional birthday. -/
def RecordFieldsOK (r : Record) : Prop := RecordOK r ∧ BirthdayOK r.birthday

/-- Decomposition of a string accepted by the birthday validator: three
dot-separated fields each wholly matched by its strptime group, whose
numeric values form a real calendar date. -/
def BdayShape (raw : String) : Prop :=
  ∃ dp mp yp, raw.data = dp ++ '.' :: (mp ++ '.' :: yp) ∧
    '.' ∉ dp ∧ '.' ∉ mp ∧ '.' ∉ yp ∧ fieldsOK dp mp yp = true

instance {ε α : Type} [DecidableEq ε] [DecidableEq α] : DecidableEq (Except ε α) :=
  fun x y =>
  match x, y with
  | .ok a, .ok b =>
    if h : a = b then isTrue (by rw [h]) else isFalse (by intro he; cases he; exact h rfl)
  | .error a, .error b =>
    if h : a = b then isTrue (by rw [h]) else isFalse (by intro he; cases he; exact h rfl)
  | .ok _, .error _ => isFalse (fun he => Except.noConfusion he)
  | .error _, .ok _ => isFalse (fun he => Except.noConfusion he)

instance (p : String) : Decidable (PhoneOK p) := by
  unfold PhoneOK; infer_instance

instance (r : Record) : Decidable (RecordOK r) := by
  unfold RecordOK; infer_instance

instance (book : AddressBook) : Decidable (BookOK book) := by
  unfold BookOK; infer_instance

instance (ob : Option String) : Decidable (BirthdayOK ob) := by
  cases ob <;> unfold BirthdayOK <;> infer_instance

instance (r : Record) : Decidable (RecordFieldsOK r) := by
  unfold RecordFieldsOK; infer_instance

/-! Helper lemmas. -/

theorem string_data_inj {s t : String} (h : s.data = t.data) : s = t := by
  cases s; cases t; exact congrArg String.mk h

theorem validPhoneB_iff (s : String) :
    validPhoneB s = true ↔ s.length = 10 ∧ ∀ c ∈ s.data, pyIsDigit c = true := by
  unfold validPhoneB pyStrIsdigit
  constructor
  · intro h
    simp only [Bool.and_eq_true, beq_iff_eq, List.all_eq_true] at h
    exact ⟨h.2, h.1.2⟩
  · intro ⟨hlen, hall⟩
    simp only [Bool.and_eq_true, beq_iff_eq, List.all_eq_true]
    refine ⟨⟨?_, hall⟩, hlen⟩
    have hlen10 : s.data.length = 10 := hlen
    cases hd : s.data with
    | nil => rw [hd] at hlen10; simp at hlen10
    | cons c l => simp [hd]

theorem find?_append_none {α : Type} (p : α → Bool) (l1 l2 : List α)
    (h : l1.find? p = none) : (l1 ++ l2).find? p = l2.find? p := by
  induction l1 with
  | nil => rfl
  | cons a l ih =>
    rw [List.find?] at h
    cases hp : p a with
    | true => rw [hp] at h; exact absurd h (by simp)
    | false =>
      rw [hp] at h
      simpa [List.find?, hp] using ih h

/-! Claim C4: phone validation. -/

/-- Claim C4, counterexample: the Python test value.isdigit() also accepts
non-ASCII digit characters such as the superscript two U+00B2, so a string
of ten superscript twos is accepted although none of its characters is an
ASCII digit 0..9.  This refutes the claimed equivalence with "exactly 10
ASCII decimal digits". -/
theorem C4_counterexample :
    validatePhone "²²²²²²²²²²" = .ok "²²²²²²²²²²" ∧
      (∃ c ∈ ("²²²²²²²²²²" : String).data, ¬('0' ≤ c ∧ c ≤ '9')) ∧
      ("²²²²²²²²²²" : String).length = 10 := by
  refine ⟨rfl, ?_, rfl⟩
  decide

/-- Claim C4, amended: validation succeeds iff the input has exactly 10
characters each accepted by the Python digit test (a superset of the ASCII
digits); on success the stored value is the input verbatim, and otherwise
it fails with the fixed InvalidFormat message. -/
theorem C4_amended (s : String) :
    (validatePhone s = .ok s ↔ s.length = 10 ∧ ∀ c ∈ s.data, pyIsDigit c = true) ∧
      (∀ t, validatePhone s = .ok t → t = s) ∧
      (validatePhone s = .ok s ∨ validatePhone s = .error phoneErrMsg) := by
  cases hv : validPhoneB s with
  | true =>
    have hok : validatePhone s = .ok s := by simp [validatePhone, hv]
    refine ⟨⟨fun _ => (validPhoneB_iff s).mp hv, fun _ => hok⟩, fun t ht => ?_, Or.inl hok⟩
    rw [hok] at ht
    cases ht
    rfl
  | false =>
    have herr : validatePhone s = .error phoneErrMsg := by simp [validatePhone, hv]
    refine ⟨⟨fun h => ?_, fun h => ?_⟩, fun t ht => ?_, Or.inr herr⟩
    · rw [herr] at h; cases h
    · exact absurd ((validPhoneB_iff s).mpr h) (by rw [hv]; simp)
    · rw [herr] at ht; cases ht

/-- Claim C4, witness: the amended theorem applied at a valid and at an
invalid concrete input. -/
theorem C4_witness :
    validatePhone "0123456789" = .ok "0123456789" ∧
      validatePhone "123456789" = .error phoneErrMsg := by
  constructor
  · exact (C4_amended "0123456789").1.mpr (by decide)
  · rcases (C4_amended "123456789").2.2 with h | h
    · exact absurd ((C4_amended "123456789").1.mp h) (by decide)
    · exact h

/-! Claim C7: the too-few-arguments message. -/

/-- Claim C7, divergence witness: for the commands that unpack their
argument list (add, change, add-birthday) a short argument list raises
ValueError, not IndexError, so the input_error wrapper returns the CPython
unpacking message instead of the fixed text "Not enough arguments.", which
only the subscripting handlers (phone, show-birthday) produce. -/
theorem C7_unpack_bug :
    add_contact ["John"] ([] : AddressBook)
        = ("not enough values to unpack (expected 2, got 1)", ([] : AddressBook)) ∧
      add_contact [] ([] : AddressBook)
        = ("not enough values to unpack (expected 2, got 0)", ([] : AddressBook)) ∧
      change_contact ["John", "0123456789"] ([] : AddressBook)
        = ("not enough values to unpack (expected 3, got 2)", ([] : AddressBook)) ∧
      add_birthday ["John"] ([] : AddressBook)
        = ("not enough values to unpack (expected 2, got 1)", ([] : AddressBook)) ∧
      show_phone [] ([] : AddressBook) = "Not enough arguments." ∧
      show_birthday [] ([] : AddressBook) = "Not enough arguments." ∧
      "not enough values to unpack (expected 2, got 1)" ≠ "Not enough arguments." := by
  exact ⟨rfl, rfl, rfl, rfl, rfl, rfl, by decide⟩

/-! Claim C10: the dispatcher add is not atomic at the directory level. -/

/-- Claim C10: when the name is new and the phone fails validation,
add_contact returns the validator message but has already inserted a fresh
record with no phones and no birthday, which remains in the book. -/
theorem C10_add_not_atomic (book : AddressBook) (name phone : String)
    (hf : AddressBook.find book name = none) (hv : validPhoneB phone = false) :
    add_contact [name, phone] book = (phoneErrMsg, book ++ [⟨name, [], none⟩]) ∧
      AddressBook.find (book ++ [⟨name, [], none⟩]) name = some ⟨name, [], none⟩ := by
  have hany : book.any (fun x => x.name == name) = false := by
    simp only [List.any_eq_false]
    intro x hx
    have := List.find?_eq_none.mp hf x hx
    simpa using this
  constructor
  · simp only [add_contact, hf, hv, if_false]
    simp [AddressBook.add_record, hany]
  · unfold AddressBook.find at hf ⊢
    rw [find?_append_none _ _ _ hf]
    simp [List.find?]

/-- Claim C10, witness. -/
theorem C10_witness :
    add_contact ["John", "12"] ([] : AddressBook)
        = (phoneErrMsg, [⟨"John", [], none⟩]) ∧
      AddressBook.find [(⟨"John", [], none⟩ : Record)] "John" = some ⟨"John", [], none⟩ := by
  have h := C10_add_not_atomic ([] : AddressBook) "John" "12" rfl (by decide)
  simpa using h

/-! Claim C1: the Feb 29 construction error is reachable and unhandled. -/

/-- Claim C1: for a stored Feb 29 birthday and a today in a non-leap year
(within the datetime year range), the query hits the date-construction
ValueError, whose message is none of the documented InvalidFormat or
NotFound messages of the core. -/
theorem C1_feb29_crash (today : SDate) (r : Record) (raw : String) (bd : SDate)
    (hy1 : 1 ≤ today.year) (hy2 : today.year ≤ 9999)
    (hl : isLeapB today.year = false)
    (hb : r.birthday = some raw) (hp : parseDDMMYYYY raw = some bd)
    (hm : bd.month = 2) (hd : bd.day = 29) :
    AddressBook.get_upcoming_birthdays today [r] = .error "day is out of range for month" ∧
      "day is out of range for month" ≠ phoneErrMsg ∧
      "day is out of range for month" ≠ bdayErrMsg ∧
      "day is out of range for month" ≠ "Phone not found" := by
  have hdim : daysInMonth today.year bd.month = 28 := by
    rw [hm]; simp [daysInMonth, hl]
  have hrep : dateReplaceYear bd today.year = .error "day is out of range for month" := by
    unfold dateReplaceYear
    rw [if_neg (by omega), if_neg (by rw [hm]; omega), if_pos (by rw [hdim, hd]; omega)]
  have hocc : occurrenceOf today bd = .error "day is out of range for month" := by
    unfold occurrenceOf
    rw [hrep]
  have hpr : processRecord today r = .error "day is out of range for month" := by
    unfold processRecord
    rw [hb]
    simp only [hp, hocc]
  refine ⟨?_, by decide, by decide, by decide⟩
  unfold AddressBook.get_upcoming_birthdays
  rw [hpr]

/-- Claim C1, witness: a book holding the (validly stored) birthday
29.02.2024, queried on 01.06.2023. -/
theorem C1_witness :
    AddressBook.get_upcoming_birthdays ⟨2023, 6, 1⟩ [⟨"X", [], some "29.02.2024"⟩]
      = .error "day is out of range for month" :=
  (C1_feb29_crash ⟨2023, 6, 1⟩ ⟨"X", [], some "29.02.2024"⟩ "29.02.2024" ⟨2024, 2, 29⟩
    (by decide) (by decide) (by decide) rfl (by decide) rfl rfl).1

/-! Claim C6: edit_phone semantics and atomicity. -/

theorem editPhoneList_found (old new : String) (pre suf : List String)
    (hnot : old ∉ pre) (hv : validPhoneB new = true) :
    editPhoneList old new (pre ++ old :: suf) = .ok (pre ++ new :: suf) := by
  induction pre with
  | nil =>
    simp only [List.nil_append, editPhoneList, beq_self_eq_true, if_true]
    simp [validatePhone, hv]
  | cons p pre ih =>
    have hne : (p == old) = false := by
      simp only [List.mem_cons, not_or] at hnot
      exact beq_eq_false_iff_ne.mpr (fun he => hnot.1 he.symm)
    have ih2 := ih (fun hmem => hnot (List.mem_cons_of_mem p hmem))
    simp only [List.cons_append, editPhoneList, List.append_eq]
    rw [if_neg (by rw [hne]; simp), ih2]

theorem editPhoneList_notfound (old new : String) (l : List String) (h : old ∉ l) :
    editPhoneList old new l = .error "Phone not found" := by
  induction l with
  | nil => rfl
  | cons p rest ih =>
    have hne : ¬(p == old) = true := by
      simp only [List.mem_cons, not_or] at h
      simp [beq_iff_eq]
      exact fun he => h.1 he.symm
    have ih2 := ih (fun hmem => h (List.mem_cons_of_mem p hmem))
    simp only [editPhoneList]
    rw [if_neg hne, ih2]

theorem editPhoneList_badnew (old new : String) (l : List String)
    (h : old ∈ l) (hv : validPhoneB new = false) :
    editPhoneList old new l = .error phoneErrMsg := by
  induction l with
  | nil => simp at h
  | cons p rest ih =>
    by_cases hpe : (p == old) = true
    · simp only [editPhoneList]
      rw [if_pos hpe]
      simp [validatePhone, hv]
    · have hmem : old ∈ rest := by
        rcases List.mem_cons.mp h with he | hm
        · exact absurd (by simp [he] : (p == old) = true) hpe
        · exact hm
      simp only [editPhoneList]
      rw [if_neg hpe, ih hmem]

/-- Claim C6: edit_phone replaces the first matching phone in place when
the new value validates; it reports NotFound when no phone matches and
InvalidFormat when a match exists but the new value is invalid; and any
failure leaves the record exactly as it was. -/
theorem C6_edit_phone (r : Record) (old new : String) :
    (∀ pre suf, r.phones = pre ++ old :: suf → old ∉ pre → validPhoneB new = true →
        Record.edit_phone r old new = (.ok (), ⟨r.name, pre ++ new :: suf, r.birthday⟩)) ∧
      (old ∉ r.phones →
        Record.edit_phone r old new = (.error "Phone not found", r)) ∧
      (old ∈ r.phones → validPhoneB new = false →
        Record.edit_phone r old new = (.error phoneErrMsg, r)) ∧
      (∀ e, (Record.edit_phone r old new).1 = .error e →
        (Record.edit_phone r old new).2 = r) := by
  refine ⟨?_, ?_, ?_, ?_⟩
  · intro pre suf hd hnot hv
    unfold Record.edit_phone
    rw [hd, editPhoneList_found old new pre suf hnot hv]
  · intro h
    unfold Record.edit_phone
    rw [editPhoneList_notfound old new r.phones h]
  · intro h hv
    unfold Record.edit_phone
    rw [editPhoneList_badnew old new r.phones h hv]
  · intro e
    unfold Record.edit_phone
    cases heq : editPhoneList old new r.phones <;> simp

/-- Claim C6, witness: the three behaviors at concrete records. -/
theorem C6_witness :
    Record.edit_phone ⟨"A", ["0123456789", "1111111111"], none⟩ "0123456789" "2222222222"
        = (.ok (), ⟨"A", ["2222222222", "1111111111"], none⟩) ∧
      Record.edit_phone ⟨"A", ["0123456789", "1111111111"], none⟩ "9999999999" "2222222222"
        = (.error "Phone not found", ⟨"A", ["0123456789", "1111111111"], none⟩) ∧
      Record.edit_phone ⟨"A", ["0123456789", "1111111111"], none⟩ "1111111111" "12"
        = (.error phoneErrMsg, ⟨"A", ["0123456789", "1111111111"], none⟩) := by
  refine ⟨?_, ?_, ?_⟩
  · exact (C6_edit_phone ⟨"A", ["0123456789", "1111111111"], none⟩ "0123456789" "2222222222").1
      [] ["1111111111"] rfl (by decide) (by decide)
  · exact (C6_edit_phone ⟨"A", ["0123456789", "1111111111"], none⟩ "9999999999" "2222222222").2.1
      (by decide)
  · exact (C6_edit_phone ⟨"A", ["0123456789", "1111111111"], none⟩ "1111111111" "12").2.2.1
      (by decide) (by decide)

/-! Claim C8: the stored-phone invariant. -/

theorem validPhoneB_PhoneOK {p : String} (h : validPhoneB p = true) : PhoneOK p :=
  (validPhoneB_iff p).mp h

theorem editPhoneList_ok_all (old new : String) (l ps : List String)
    (hok : ∀ p ∈ l, PhoneOK p) (h : editPhoneList old new l = .ok ps) :
    ∀ p ∈ ps, PhoneOK p := by
  induction l generalizing ps with
  | nil => cases h
  | cons p rest ih =>
    simp only [editPhoneList] at h
    by_cases hpe : (p == old) = true
    · rw [if_pos hpe] at h
      cases hv : validPhoneB new with
      | true =>
        rw [show validatePhone new = .ok new by simp [validatePhone, hv]] at h
        cases h
        intro q hq
        rcases List.mem_cons.mp hq with he | hm
        · rw [he]; exact validPhoneB_PhoneOK hv
        · exact hok q (List.mem_cons_of_mem p hm)
      | false =>
        rw [show validatePhone new = .error phoneErrMsg by simp [validatePhone, hv]] at h
        cases h
    · rw [if_neg hpe] at h
      cases heq : editPhoneList old new rest with
      | ok qs =>
        rw [heq] at h
        cases h
        intro q hq
        rcases List.mem_cons.mp hq with he | hm
        · rw [he]; exact hok p (List.mem_cons_self p rest)
        · exact ih qs (fun x hx => hok x (List.mem_cons_of_mem p hx)) heq q hm
      | error e => rw [heq] at h; cases h

/-- Claim C8, counterexample: starting from the empty book, the dispatcher
add command stores the ten Arabic-Indic digits as a phone, so a reachable
book state holds a phone that is not made of ASCII digits 0..9, refuting
the claimed ASCII invariant. -/
theorem C8_counterexample :
    ∃ r ∈ (add_contact ["Ann", "٠١٢٣٤٥٦٧٨٩"] ([] : AddressBook)).2,
      ∃ p ∈ r.phones, ∃ c ∈ p.data, ¬('0' ≤ c ∧ c ≤ '9') := by
  decide

/-- Claim C8, amended: every operation preserves the invariant the code
actually enforces, namely that each stored phone has exactly 10 characters
all accepted by the Python digit test (a superset of ASCII 0..9). -/
theorem C8_invariant (r : Record) (book : AddressBook) (s old new nm : String) :
    (RecordOK r → RecordOK (Record.add_phone r s).2) ∧
      (RecordOK r → RecordOK (Record.edit_phone r old new).2) ∧
      (RecordOK r → RecordOK (Record.remove_phone r s)) ∧
      (RecordOK r → RecordOK (Record.add_birthday r s).2) ∧
      (BookOK book → RecordOK r → BookOK (AddressBook.add_record book r)) ∧
      (BookOK book → BookOK (AddressBook.delete book nm)) := by
  refine ⟨?_, ?_, ?_, ?_, ?_, ?_⟩
  · intro hok
    unfold Record.add_phone
    cases hv : validPhoneB s with
    | true =>
      rw [show validatePhone s = .ok s by simp [validatePhone, hv]]
      intro p hp
      rcases List.mem_append.mp hp with hm | hm
      · exact hok p hm
      · rw [List.mem_singleton.mp hm]; exact validPhoneB_PhoneOK hv
    | false =>
      rw [show validatePhone s = .error phoneErrMsg by simp [validatePhone, hv]]
      exact hok
  · intro hok
    unfold Record.edit_phone
    cases heq : editPhoneList old new r.phones with
    | ok ps => exact editPhoneList_ok_all old new r.phones ps hok heq
    | error e => exact hok
  · intro hok p hp
    exact hok p (List.mem_of_mem_filter hp)
  · intro hok
    unfold Record.add_birthday
    cases heq : validateBirthday s with
    | ok v => exact hok
    | error e => exact hok
  · intro hbook hok
    unfold AddressBook.add_record
    by_cases hany : (book.any fun x => x.name == r.name) = true
    · rw [if_pos hany]
      intro x hx
      rcases List.mem_map.mp hx with ⟨y, hy, hxy⟩
      by_cases hyn : (y.name == r.name) = true
      · rw [if_pos hyn] at hxy; rw [← hxy]; exact hok
      · rw [if_neg hyn] at hxy; rw [← hxy]; exact hbook y hy
    · rw [if_neg hany]
      intro x hx
      rcases List.mem_append.mp hx with hm | hm
      · exact hbook x hm
      · rw [List.mem_singleton.mp hm]; exact hok
  · intro hbook x hx
    exact hbook x (List.mem_of_mem_filter hx)

/-- Claim C8, witness: the preservation conjuncts applied at concrete
records and books. -/
theorem C8_witness :
    RecordOK (Record.add_phone ⟨"A", ["0123456789"], none⟩ "0000000000").2 ∧
      RecordOK (Record.edit_phone ⟨"A", ["0123456789"], none⟩ "0123456789" "13").2 ∧
      BookOK (AddressBook.add_record [⟨"B", ["5550123456"], none⟩] ⟨"A", ["0123456789"], none⟩) ∧
      BookOK (AddressBook.delete [(⟨"B", ["5550123456"], none⟩ : Record)] "B") := by
  refine ⟨?_, ?_, ?_, ?_⟩
  · exact (C8_invariant ⟨"A", ["0123456789"], none⟩ [] "0000000000" "" "" "").1 (by decide)
  · exact (C8_invariant ⟨"A", ["0123456789"], none⟩ [] "" "0123456789" "13" "").2.1 (by decide)
  · exact (C8_invariant ⟨"A", ["0123456789"], none⟩ [⟨"B", ["5550123456"], none⟩] "" "" "" "").2.2.2.2.1
      (by decide) (by decide)
  · exact (C8_invariant ⟨"A", [], none⟩ [⟨"B", ["5550123456"], none⟩] "" "" "" "B").2.2.2.2.2
      (by decide)

/-! Claims C2 and C3: the upcoming-birthday query. -/

theorem processRecord_eq (today : SDate) (r : Record) (raw : String) (bd occ : SDate)
    (hb : r.birthday = some raw) (hp : parseDDMMYYYY raw = some bd)
    (ho : occurrenceOf today bd = .ok occ) :
    processRecord today r =
      if 0 ≤ deltaDays today occ ∧ deltaDays today occ ≤ 7
      then .ok (some ⟨r.name, formatDate (weekendShift occ)⟩)
      else .ok none := by
  unfold processRecord
  rw [hb]
  simp only [hp, ho]

theorem processRecord_name (today : SDate) (r : Record) (e : BdEntry)
    (h : processRecord today r = .ok (some e)) : e.name = r.name := by
  unfold processRecord at h
  cases hb : r.birthday with
  | none => rw [hb] at h; simp at h
  | some raw =>
    rw [hb] at h
    cases hp : parseDDMMYYYY raw with
    | none => simp only [hp] at h; cases h
    | some bd =>
      simp only [hp] at h
      cases ho : occurrenceOf today bd with
      | error e2 => simp only [ho] at h; cases h
      | ok occ =>
        simp only [ho] at h
        by_cases hc : 0 ≤ deltaDays today occ ∧ deltaDays today occ ≤ 7
        · rw [if_pos hc] at h
          injection h with h1
          injection h1 with h2
          rw [← h2]
        · rw [if_neg hc] at h; simp at h

theorem upcoming_mem (today : SDate) (book : AddressBook) (res : List BdEntry)
    (hq : AddressBook.get_upcoming_birthdays today book = .ok res) (e : BdEntry) :
    e ∈ res ↔ ∃ r ∈ book, processRecord today r = .ok (some e) := by
  induction book generalizing res with
  | nil =>
    unfold AddressBook.get_upcoming_birthdays at hq
    injection hq with h1
    rw [← h1]
    simp
  | cons r rest ih =>
    unfold AddressBook.get_upcoming_birthdays at hq
    cases hpr : processRecord today r with
    | error e2 => simp only [hpr] at hq; exact Except.noConfusion hq
    | ok opt =>
      cases opt with
      | none =>
        simp only [hpr] at hq
        constructor
        · intro hm
          rcases (ih res hq).mp hm with ⟨r', hr', hp'⟩
          exact ⟨r', List.mem_cons_of_mem r hr', hp'⟩
        · rintro ⟨r', hr', hp'⟩
          rcases List.mem_cons.mp hr' with he | hm
          · rw [he, hpr] at hp'; simp at hp'
          · exact (ih res hq).mpr ⟨r', hm, hp'⟩
      | some en =>
        simp only [hpr] at hq
        cases hrest : AddressBook.get_upcoming_birthdays today rest with
        | error e2 => simp only [hrest] at hq; exact Except.noConfusion hq
        | ok tl =>
          simp only [hrest] at hq
          injection hq with h1
          rw [← h1]
          constructor
          · intro hm
            rcases List.mem_cons.mp hm with he | hm2
            · exact ⟨r, List.mem_cons_self r rest, by rw [hpr, he]⟩
            · rcases (ih tl hrest).mp hm2 with ⟨r', hr', hp'⟩
              exact ⟨r', List.mem_cons_of_mem r hr', hp'⟩
          · rintro ⟨r', hr', hp'⟩
            rcases List.mem_cons.mp hr' with he | hm2
            · rw [he, hpr] at hp'
              injection hp' with h2
              injection h2 with h3
              rw [← h3]
              exact List.mem_cons_self en tl
            · exact List.mem_cons_of_mem en ((ih tl hrest).mpr ⟨r', hm2, hp'⟩)

theorem nodup_name_inj (book : AddressBook) (hnd : (book.map Record.name).Nodup)
    (r1 r2 : Record) (h1 : r1 ∈ book) (h2 : r2 ∈ book) (hn : r1.name = r2.name) :
    r1 = r2 := by
  induction book with
  | nil => cases h1
  | cons b rest ih =>
    rw [List.map_cons, List.nodup_cons] at hnd
    rcases List.mem_cons.mp h1 with he1 | hm1 <;> rcases List.mem_cons.mp h2 with he2 | hm2
    · rw [he1, he2]
    · exfalso
      apply hnd.1
      rw [he1] at hn
      rw [hn]
      exact List.mem_map_of_mem Record.name hm2
    · exfalso
      apply hnd.1
      rw [he2] at hn
      rw [← hn]
      exact List.mem_map_of_mem Record.name hm1
    · exact ih hnd.2 hm1 hm2

/-- Claim C2: given the decomposition the source computes (stored birthday
re-parsed, occurrence built in the year of today and advanced one year
exactly when strictly earlier than today), a record of the book appears in
the successful query result if and only if the whole-day difference delta
satisfies 0 <= delta <= 7. -/
theorem C2_window (today : SDate) (book : AddressBook) (res : List BdEntry)
    (r : Record) (raw : String) (bd occ : SDate)
    (hq : AddressBook.get_upcoming_birthdays today book = .ok res)
    (hnd : (book.map Record.name).Nodup)
    (hr : r ∈ book) (hb : r.birthday = some raw)
    (hp : parseDDMMYYYY raw = some bd)
    (ho : occurrenceOf today bd = .ok occ) :
    (∃ e ∈ res, e.name = r.name) ↔
      (0 ≤ deltaDays today occ ∧ deltaDays today occ ≤ 7) := by
  have hpe := processRecord_eq today r raw bd occ hb hp ho
  constructor
  · rintro ⟨e, hmem, hname⟩
    rcases (upcoming_mem today book res hq e).mp hmem with ⟨r', hr', hp'⟩
    have hrr : r' = r := by
      apply nodup_name_inj book hnd r' r hr' hr
      rw [← (processRecord_name today r' e hp'), hname]
    rw [hrr, hpe] at hp'
    by_cases hc : 0 ≤ deltaDays today occ ∧ deltaDays today occ ≤ 7
    · exact hc
    · rw [if_neg hc] at hp'; simp at hp'
  · intro hc
    have hrok : processRecord today r = .ok (some ⟨r.name, formatDate (weekendShift occ)⟩) := by
      rw [hpe, if_pos hc]
    exact ⟨⟨r.name, formatDate (weekendShift occ)⟩,
      (upcoming_mem today book res hq _).mpr ⟨r, hr, hrok⟩, rfl⟩

/-- Claim C2, witness: the year-rollover scenario of the spec, today
31.12.2024 and birthday 02.01.1990, included with delta 2. -/
theorem C2_witness :
    ∃ e ∈ ([⟨"Zoe", "02.01.2025"⟩] : List BdEntry), e.name = ("Zoe" : String) :=
  (C2_window ⟨2024, 12, 31⟩ [⟨"Zoe", [], some "02.01.1990"⟩] [⟨"Zoe", "02.01.2025"⟩]
      ⟨"Zoe", [], some "02.01.1990"⟩ "02.01.1990" ⟨1990, 1, 2⟩ ⟨2025, 1, 2⟩
      rfl (by decide) (by decide) rfl (by decide) (by decide)).mpr (by decide)

/-- Claim C3: an emitted entry carries the name of its record and the
formatted congratulation date, which is the occurrence pushed 2 days when
the occurrence is a Saturday (weekday 5), 1 day when a Sunday (weekday 6)
and unchanged otherwise; and inclusion itself is decided on the unshifted
occurrence via the window condition. -/
theorem C3_weekend (today : SDate) (r : Record) (raw : String) (bd occ : SDate) (e : BdEntry)
    (hb : r.birthday = some raw) (hp : parseDDMMYYYY raw = some bd)
    (ho : occurrenceOf today bd = .ok occ)
    (he : processRecord today r = .ok (some e)) :
    e.name = r.name ∧
      (weekdayOf occ = 5 → e.birthday = formatDate (addDays occ 2)) ∧
      (weekdayOf occ = 6 → e.birthday = formatDate (addDays occ 1)) ∧
      (weekdayOf occ ≠ 5 → weekdayOf occ ≠ 6 → e.birthday = formatDate occ) ∧
      (0 ≤ deltaDays today occ ∧ deltaDays today occ ≤ 7) := by
  rw [processRecord_eq today r raw bd occ hb hp ho] at he
  by_cases hc : 0 ≤ deltaDays today occ ∧ deltaDays today occ ≤ 7
  · rw [if_pos hc] at he
    injection he with h1
    injection h1 with h2
    refine ⟨by rw [← h2], ?_, ?_, ?_, hc⟩
    · intro h5
      rw [← h2]
      show formatDate (weekendShift occ) = formatDate (addDays occ 2)
      simp [weekendShift, h5]
    · intro h6
      rw [← h2]
      show formatDate (weekendShift occ) = formatDate (addDays occ 1)
      simp [weekendShift, h6]
    · intro h5 h6
      rw [← h2]
      show formatDate (weekendShift occ) = formatDate occ
      simp [weekendShift, h5, h6]
  · rw [if_neg hc] at he; simp at he

/-- Claim C3, witness: the Sunday scenario of the spec, today 15.06.2024
and birthday 16.06.2024 (a Sunday), reported as 17.06.2024 (Monday). -/
theorem C3_witness :
    processRecord ⟨2024, 6, 15⟩ ⟨"Bob", [], some "16.06.2024"⟩
        = .ok (some ⟨"Bob", "17.06.2024"⟩) ∧
      ("17.06.2024" : String) = formatDate (addDays ⟨2024, 6, 16⟩ 1) := by
  have h := C3_weekend ⟨2024, 6, 15⟩ ⟨"Bob", [], some "16.06.2024"⟩ "16.06.2024"
    ⟨2024, 6, 16⟩ ⟨2024, 6, 16⟩ ⟨"Bob", "17.06.2024"⟩ rfl (by decide) (by decide) (by decide)
  exact ⟨by decide, h.2.2.1 (by decide)⟩

/-! Claim C5: birthday validation. -/

theorem splitDots_ne_nil : ∀ l : List Char, splitDots l ≠ []
  | [] => by simp [splitDots]
  | c :: rest => by
    unfold splitDots
    by_cases hc : c = '.'
    · rw [if_pos hc]; simp
    · rw [if_neg hc]
      cases h : splitDots rest <;> simp

theorem splitDots_shape (l : List Char) :
    (∀ p ∈ splitDots l, '.' ∉ p) ∧ joinDots (splitDots l) = l := by
  induction l with
  | nil =>
    refine ⟨?_, rfl⟩
    intro p hp
    simp only [splitDots, List.mem_singleton] at hp
    rw [hp]
    simp
  | cons c rest ih =>
    by_cases hc : c = '.'
    · refine ⟨?_, ?_⟩
      · intro p hp
        simp only [splitDots, if_pos hc] at hp
        rcases List.mem_cons.mp hp with he | hm
        · rw [he]; simp
        · exact ih.1 p hm
      · simp only [splitDots, if_pos hc]
        cases hs : splitDots rest with
        | nil => exact absurd hs (splitDots_ne_nil rest)
        | cons h t =>
          have hji := ih.2
          rw [hs] at hji
          show joinDots ([] :: h :: t) = c :: rest
          rw [show joinDots ([] :: h :: t) = '.' :: joinDots (h :: t) from by
            rw [joinDots]; rfl]
          rw [hji, hc]
    · cases hs : splitDots rest with
      | nil => exact absurd hs (splitDots_ne_nil rest)
      | cons h t =>
        have hji := ih.2
        rw [hs] at hji
        refine ⟨?_, ?_⟩
        · intro p hp
          simp only [splitDots, if_neg hc, hs] at hp
          rcases List.mem_cons.mp hp with he | hm
          · rw [he]
            intro hdot
            rcases List.mem_cons.mp hdot with h1 | h2
            · exact hc h1.symm
            · exact ih.1 h (by rw [hs]; exact List.mem_cons_self h t) h2
          · exact ih.1 p (by rw [hs]; exact List.mem_cons_of_mem h hm)
        · simp only [splitDots, if_neg hc, hs]
          cases t with
          | nil =>
            show joinDots [c :: h] = c :: rest
            rw [show joinDots [c :: h] = c :: h from by rw [joinDots]]
            rw [show joinDots [h] = h from by rw [joinDots]] at hji
            rw [hji]
          | cons x t2 =>
            show joinDots ((c :: h) :: x :: t2) = c :: rest
            rw [show joinDots ((c :: h) :: x :: t2) = (c :: h) ++ '.' :: joinDots (x :: t2) from by
              rw [joinDots]]
            rw [show joinDots (h :: x :: t2) = h ++ '.' :: joinDots (x :: t2) from by
              rw [joinDots]] at hji
            rw [List.cons_append, hji]

theorem splitDots_nodot (l : List Char) (h : '.' ∉ l) : splitDots l = [l] := by
  induction l with
  | nil => rfl
  | cons c rest ih =>
    have hc : ¬ c = '.' := fun he => h (List.mem_cons.mpr (Or.inl he.symm))
    have hrest : '.' ∉ rest := fun hm => h (List.mem_cons_of_mem c hm)
    simp only [splitDots, if_neg hc, ih hrest]

theorem splitDots_append (a b : List Char) (ha : '.' ∉ a) :
    splitDots (a ++ '.' :: b) = a :: splitDots b := by
  induction a with
  | nil => simp [splitDots]
  | cons c a2 ih =>
    have hc : ¬ c = '.' := fun he => ha (List.mem_cons.mpr (Or.inl he.symm))
    have ha2 : '.' ∉ a2 := fun hm => ha (List.mem_cons_of_mem c hm)
    simp only [List.cons_append, splitDots, List.append_eq, if_neg hc, ih ha2]

theorem joinDots_three (a b c : List Char) :
    joinDots [a, b, c] = a ++ '.' :: (b ++ '.' :: c) := by
  simp [joinDots]

theorem parse_isSome_iff_shape (raw : String) :
    (parseDDMMYYYY raw).isSome = true ↔ BdayShape raw := by
  constructor
  · intro h
    unfold parseDDMMYYYY at h
    cases hs : splitDots raw.data with
    | nil => exact absurd hs (splitDots_ne_nil raw.data)
    | cons dp rest =>
      cases rest with
      | nil => rw [hs] at h; simp at h
      | cons mp rest2 =>
        cases rest2 with
        | nil => rw [hs] at h; simp at h
        | cons yp rest3 =>
          cases rest3 with
          | cons z rest4 => rw [hs] at h; simp at h
          | nil =>
            rw [hs] at h
            by_cases hf : fieldsOK dp mp yp = true
            · have hshape := splitDots_shape raw.data
              have hj : joinDots [dp, mp, yp] = raw.data := by rw [← hs]; exact hshape.2
              refine ⟨dp, mp, yp, ?_, ?_, ?_, ?_, hf⟩
              · rw [← hj, joinDots_three]
              · exact hshape.1 dp (by rw [hs]; simp)
              · exact hshape.1 mp (by rw [hs]; simp)
              · exact hshape.1 yp (by rw [hs]; simp)
            · simp [hf] at h
  · rintro ⟨dp, mp, yp, heq, h1, h2, h3, hf⟩
    unfold parseDDMMYYYY
    rw [heq, splitDots_append dp _ h1, splitDots_append mp _ h2, splitDots_nodot yp h3]
    simp [hf]

/-- Claim C5, counterexample: strptime with the format "%d.%m.%Y" also
accepts a single-digit day and month, so the eight-character input
1.1.2000 validates although it is not of the claimed two-digit DD.MM.YYYY
shape (whose matches always have ten characters). -/
theorem C5_counterexample :
    validateBirthday "1.1.2000" = .ok "1.1.2000" ∧
      ("1.1.2000" : String).length = 8 := ⟨rfl, rfl⟩

/-- Claim C5, amended: birthday validation succeeds iff the input splits
on dots into exactly three fields, where the day field is wholly matched
by the strptime day group (30 or 31, 10..29 with any decimal second
digit, zero-padded 01..09, or a bare digit 1..9), the month field by
(10..12, 01..09, or 1..9), the year field is exactly four decimal digits,
and the numeric values form a real calendar date in the datetime range;
in particular a one-digit day or month is accepted, not only two-digit
forms.  On success the stored value is the raw string verbatim, otherwise
the fixed InvalidFormat message is produced. -/
theorem C5_amended (raw : String) :
    (validateBirthday raw = .ok raw ↔ BdayShape raw) ∧
      (∀ t, validateBirthday raw = .ok t → t = raw) ∧
      (validateBirthday raw = .ok raw ∨ validateBirthday raw = .error bdayErrMsg) := by
  cases hS : (parseDDMMYYYY raw).isSome with
  | true =>
    have hok : validateBirthday raw = .ok raw := by simp [validateBirthday, hS]
    refine ⟨⟨fun _ => (parse_isSome_iff_shape raw).mp hS, fun _ => hok⟩,
      fun t ht => ?_, Or.inl hok⟩
    rw [hok] at ht
    cases ht
    rfl
  | false =>
    have herr : validateBirthday raw = .error bdayErrMsg := by simp [validateBirthday, hS]
    refine ⟨⟨fun h => ?_, fun h => ?_⟩, fun t ht => ?_, Or.inr herr⟩
    · rw [herr] at h; cases h
    · exact absurd ((parse_isSome_iff_shape raw).mpr h) (by rw [hS]; simp)
    · rw [herr] at ht; cases ht

/-- Claim C5, witness: the amended theorem applied at a leap-day input
that validates and at the rejected 29.02.2023. -/
theorem C5_witness :
    BdayShape "29.02.2024" ∧ validateBirthday "29.02.2023" = .error bdayErrMsg := by
  constructor
  · exact (C5_amended "29.02.2024").1.mp rfl
  · rcases (C5_amended "29.02.2023").2.2 with h | h
    · exact absurd h (by decide)
    · exact h

/-! Claim C9: the describe output is lossless. -/

theorem dayPat_no_comma {dp : List Char} (h : dayPat dp = true) : ',' ∉ dp := by
  intro hm
  cases dp with
  | nil => cases hm
  | cons c0 rest =>
    cases rest with
    | nil =>
      rw [← List.mem_singleton.mp hm] at h
      exact absurd h (by decide)
    | cons c1 rest2 =>
      cases rest2 with
      | cons z r3 => simp [dayPat] at h
      | nil =>
        rcases List.mem_cons.mp hm with e0 | hm2
        · rw [← e0] at h
          simp only [dayPat] at h
          rw [show ((',' : Char) == '3') = false from by decide,
            show ((',' : Char) == '1') = false from by decide,
            show ((',' : Char) == '2') = false from by decide,
            show ((',' : Char) == '0') = false from by decide] at h
          simp at h
        · rw [← List.mem_singleton.mp hm2] at h
          simp only [dayPat] at h
          rw [show ((',' : Char) == '0') = false from by decide,
            show ((',' : Char) == '1') = false from by decide,
            show pyIsDecimal ',' = false from by decide,
            show charIn '1' '9' ',' = false from by decide] at h
          simp at h

theorem monthPat_no_comma {mp : List Char} (h : monthPat mp = true) : ',' ∉ mp := by
  intro hm
  cases mp with
  | nil => cases hm
  | cons c0 rest =>
    cases rest with
    | nil =>
      rw [← List.mem_singleton.mp hm] at h
      exact absurd h (by decide)
    | cons c1 rest2 =>
      cases rest2 with
      | cons z r3 => simp [monthPat] at h
      | nil =>
        rcases List.mem_cons.mp hm with e0 | hm2
        · rw [← e0] at h
          simp only [monthPat] at h
          rw [show ((',' : Char) == '1') = false from by decide,
            show ((',' : Char) == '0') = false from by decide] at h
          simp at h
        · rw [← List.mem_singleton.mp hm2] at h
          simp only [monthPat] at h
          rw [show ((',' : Char) == '0') = false from by decide,
            show ((',' : Char) == '1') = false from by decide,
            show ((',' : Char) == '2') = false from by decide,
            show charIn '1' '9' ',' = false from by decide] at h
          simp at h

theorem yearPat_no_comma {yp : List Char} (h : yearPat yp = true) : ',' ∉ yp := by
  intro hm
  simp only [yearPat, Bool.and_eq_true, List.all_eq_true] at h
  exact absurd (h.2 ',' hm) (by decide)

theorem bday_no_comma {raw : String} (h : (parseDDMMYYYY raw).isSome = true) :
    ',' ∉ raw.data := by
  rcases (parse_isSome_iff_shape raw).mp h with ⟨dp, mp, yp, heq, _, _, _, hf⟩
  simp only [fieldsOK, Bool.and_eq_true] at hf
  obtain ⟨⟨⟨hd, hm⟩, hy⟩, _⟩ := hf
  intro hc
  rw [heq] at hc
  rcases List.mem_append.mp hc with h1 | h2
  · exact dayPat_no_comma hd h1
  · rcases List.mem_cons.mp h2 with he | h3
    · exact absurd he (by decide)
    · rcases List.mem_append.mp h3 with h4 | h5
      · exact monthPat_no_comma hm h4
      · rcases List.mem_cons.mp h5 with he2 | h6
        · exact absurd he2 (by decide)
        · exact yearPat_no_comma hy h6

theorem joinSemis_chars (l : List String) (c : Char) (hc : c ∈ (joinSemis l).data) :
    (∃ p ∈ l, c ∈ p.data) ∨ c = ';' ∨ c = ' ' := by
  induction l with
  | nil =>
    rw [show joinSemis [] = "" from rfl, show ("" : String).data = [] from rfl] at hc
    cases hc
  | cons p rest ih =>
    cases rest with
    | nil =>
      rw [show joinSemis [p] = p from rfl] at hc
      exact Or.inl ⟨p, List.mem_cons_self p [], hc⟩
    | cons q rest2 =>
      rw [show joinSemis (p :: q :: rest2) = p ++ "; " ++ joinSemis (q :: rest2) from rfl,
        String.data_append, String.data_append] at hc
      rcases List.mem_append.mp hc with h1 | h2
      · rcases List.mem_append.mp h1 with h3 | h4
        · exact Or.inl ⟨p, List.mem_cons_self p (q :: rest2), h3⟩
        · rcases List.mem_cons.mp h4 with he | h5
          · exact Or.inr (Or.inl he)
          · exact Or.inr (Or.inr (List.mem_singleton.mp h5))
      · rcases ih h2 with ⟨p2, hp2, hcp⟩ | hr
        · exact Or.inl ⟨p2, List.mem_cons_of_mem p hp2, hcp⟩
        · exact Or.inr hr

theorem join_no_comma {l : List String} (h : ∀ p ∈ l, PhoneOK p) :
    ',' ∉ (joinSemis l).data := by
  intro hc
  rcases joinSemis_chars l ',' hc with ⟨p, hp, hcp⟩ | h2 | h2
  · exact absurd ((h p hp).2 ',' hcp) (by decide)
  · exact absurd h2 (by decide)
  · exact absurd h2 (by decide)

theorem split_at_first {c : Char} : ∀ (x1 y1 x2 y2 : List Char), c ∉ x1 → c ∉ x2 →
    x1 ++ c :: y1 = x2 ++ c :: y2 → x1 = x2 ∧ y1 = y2 := by
  intro x1
  induction x1 with
  | nil =>
    intro y1 x2 y2 _ h2 he
    cases x2 with
    | nil =>
      simp only [List.nil_append] at he
      injection he with h1 h2'
      exact ⟨rfl, h2'⟩
    | cons b x2' =>
      simp only [List.nil_append, List.cons_append] at he
      injection he with hb ht
      exact absurd (List.mem_cons.mpr (Or.inl hb)) h2
  | cons a x1' ih =>
    intro y1 x2 y2 h1 h2 he
    cases x2 with
    | nil =>
      simp only [List.cons_append, List.nil_append] at he
      injection he with ha ht
      exact absurd (List.mem_cons.mpr (Or.inl ha.symm)) h1
    | cons b x2' =>
      simp only [List.cons_append] at he
      injection he with hab ht
      have h1' : c ∉ x1' := fun hm => h1 (List.mem_cons_of_mem a hm)
      have h2' : c ∉ x2' := fun hm => h2 (List.mem_cons_of_mem b hm)
      obtain ⟨hx, hy⟩ := ih y1 x2' y2 h1' h2' ht
      exact ⟨by rw [hab, hx], hy⟩

theorem split_at_last {c : Char} (x1 y1 x2 y2 : List Char) (h1 : c ∉ y1) (h2 : c ∉ y2)
    (he : x1 ++ c :: y1 = x2 ++ c :: y2) : x1 = x2 ∧ y1 = y2 := by
  have hrev := congrArg List.reverse he
  rw [List.reverse_append, List.reverse_append, List.reverse_cons, List.reverse_cons,
    List.append_assoc, List.append_assoc] at hrev
  simp only [List.singleton_append] at hrev
  have h1' : c ∉ y1.reverse := by rw [List.mem_reverse]; exact h1
  have h2' : c ∉ y2.reverse := by rw [List.mem_reverse]; exact h2
  obtain ⟨hy, hx⟩ := split_at_first y1.reverse x1.reverse y2.reverse x2.reverse h1' h2' hrev
  exact ⟨List.reverse_inj.mp hx, List.reverse_inj.mp hy⟩

theorem joinSemis_cons_length (q : String) (t : List String) :
    q.length ≤ (joinSemis (q :: t)).length := by
  cases t with
  | nil => exact le_of_eq rfl
  | cons x t2 =>
    rw [show joinSemis (q :: x :: t2) = q ++ "; " ++ joinSemis (x :: t2) from rfl,
      String.length_append, String.length_append]
    omega

theorem joinSemis_inj : ∀ (l1 l2 : List String), (∀ p ∈ l1, p.length = 10) →
    (∀ p ∈ l2, p.length = 10) → joinSemis l1 = joinSemis l2 → l1 = l2 := by
  intro l1
  induction l1 with
  | nil =>
    intro l2 _ h2 he
    cases l2 with
    | nil => rfl
    | cons q t =>
      exfalso
      have hl := congrArg String.length he
      rw [show joinSemis [] = "" from rfl, show ("" : String).length = 0 from rfl] at hl
      have hq := h2 q (List.mem_cons_self q t)
      have hg := joinSemis_cons_length q t
      omega
  | cons p t1 ih =>
    intro l2 h1 h2 he
    cases l2 with
    | nil =>
      exfalso
      have hl := congrArg String.length he
      rw [show joinSemis [] = "" from rfl, show ("" : String).length = 0 from rfl] at hl
      have hp := h1 p (List.mem_cons_self p t1)
      have hg := joinSemis_cons_length p t1
      omega
    | cons q t2 =>
      cases t1 with
      | nil =>
        cases t2 with
        | nil =>
          rw [show joinSemis [p] = p from rfl, show joinSemis [q] = q from rfl] at he
          rw [he]
        | cons x t2' =>
          exfalso
          have hl := congrArg String.length he
          rw [show joinSemis [p] = p from rfl,
            show joinSemis (q :: x :: t2') = q ++ "; " ++ joinSemis (x :: t2') from rfl,
            String.length_append, String.length_append] at hl
          have hp := h1 p (List.mem_cons_self p [])
          have hq := h2 q (List.mem_cons_self q (x :: t2'))
          have hx10 := h2 x (List.mem_cons_of_mem q (List.mem_cons_self x t2'))
          have hg := joinSemis_cons_length x t2'
          have hsl : ("; " : String).length = 2 := rfl
          omega
      | cons x1 t1' =>
        cases t2 with
        | nil =>
          exfalso
          have hl := congrArg String.length he
          rw [show joinSemis [q] = q from rfl,
            show joinSemis (p :: x1 :: t1') = p ++ "; " ++ joinSemis (x1 :: t1') from rfl,
            String.length_append, String.length_append] at hl
          have hp := h1 p (List.mem_cons_self p (x1 :: t1'))
          have hq := h2 q (List.mem_cons_self q [])
          have hx10 := h1 x1 (List.mem_cons_of_mem p (List.mem_cons_self x1 t1'))
          have hg := joinSemis_cons_length x1 t1'
          have hsl : ("; " : String).length = 2 := rfl
          omega
        | cons x2 t2' =>
          rw [show joinSemis (p :: x1 :: t1') = p ++ "; " ++ joinSemis (x1 :: t1') from rfl,
            show joinSemis (q :: x2 :: t2') = q ++ "; " ++ joinSemis (x2 :: t2') from rfl] at he
          have hd := congrArg String.data he
          rw [String.data_append, String.data_append, String.data_append,
            String.data_append, List.append_assoc, List.append_assoc] at hd
          have hlen : p.data.length = q.data.length := by
            have hp : p.length = 10 := h1 p (List.mem_cons_self p (x1 :: t1'))
            have hq : q.length = 10 := h2 q (List.mem_cons_self q (x2 :: t2'))
            exact hp.trans hq.symm
          obtain ⟨hpq, hrest⟩ := List.append_inj hd hlen
          have hJ : joinSemis (x1 :: t1') = joinSemis (x2 :: t2') :=
            string_data_inj (List.append_cancel_left hrest)
          have ht := ih (x2 :: t2') (fun r hr => h1 r (List.mem_cons_of_mem p hr))
            (fun r hr => h2 r (List.mem_cons_of_mem q hr)) hJ
          rw [string_data_inj hpq, ht]

/-- Claim C9: the textual form produced by Record.__str__ is lossless on
records whose phones and optional birthday passed validation: two such
records with the same rendering are equal, so the output can be parsed
back to recover exactly the name, the phone sequence and the birthday,
for arbitrary non-empty names. -/
theorem C9_roundtrip (r1 r2 : Record)
    (h1 : RecordFieldsOK r1) (h2 : RecordFieldsOK r2)
    (_hn1 : r1.name ≠ "") (_hn2 : r2.name ≠ "")
    (he : renderRecord r1 = renderRecord r2) : r1 = r2 := by
  obtain ⟨h1p, h1b⟩ := h1
  obtain ⟨h2p, h2b⟩ := h2
  have hd := congrArg String.data he
  unfold renderRecord at hd
  simp only [String.data_append, List.append_assoc] at hd
  have hd2 := List.append_cancel_left hd
  have shape : ∀ n J B : List Char,
      n ++ ([',', ' ', 'p', 'h', 'o', 'n', 'e', 's', ':', ' '] ++
          (J ++ ([',', ' ', 'b', 'i', 'r', 't', 'h', 'd', 'a', 'y', ':', ' '] ++ B)))
        = (n ++ ',' :: ([' ', 'p', 'h', 'o', 'n', 'e', 's', ':', ' '] ++ J)) ++
            ',' :: ([' ', 'b', 'i', 'r', 't', 'h', 'd', 'a', 'y', ':', ' '] ++ B) := by
    intro n J B
    simp
  rw [shape, shape] at hd2
  have hBc : ∀ ob : Option String, BirthdayOK ob → ',' ∉ (bdayStrOf ob).data := by
    intro ob hok hmem
    cases ob with
    | none => exact absurd hmem (by decide)
    | some raw => exact bday_no_comma hok hmem
  have hY1 : ',' ∉ [' ', 'b', 'i', 'r', 't', 'h', 'd', 'a', 'y', ':', ' '] ++ (bdayStrOf r1.birthday).data := by
    intro hmem
    rcases List.mem_append.mp hmem with hm | hm
    · exact absurd hm (by decide)
    · exact hBc r1.birthday h1b hm
  have hY2 : ',' ∉ [' ', 'b', 'i', 'r', 't', 'h', 'd', 'a', 'y', ':', ' '] ++ (bdayStrOf r2.birthday).data := by
    intro hmem
    rcases List.mem_append.mp hmem with hm | hm
    · exact absurd hm (by decide)
    · exact hBc r2.birthday h2b hm
  obtain ⟨hX, hY⟩ := split_at_last _ _ _ _ hY1 hY2 hd2
  have hB : (bdayStrOf r1.birthday).data = (bdayStrOf r2.birthday).data :=
    List.append_cancel_left hY
  have hbd : r1.birthday = r2.birthday := by
    cases hb1 : r1.birthday with
    | none =>
      cases hb2 : r2.birthday with
      | none => rfl
      | some raw2 =>
        exfalso
        rw [hb1, hb2] at hB
        have hr2 : raw2 = "None" := string_data_inj hB.symm
        rw [hb2] at h2b
        rw [hr2] at h2b
        exact absurd h2b (by decide)
    | some raw1 =>
      cases hb2 : r2.birthday with
      | none =>
        exfalso
        rw [hb1, hb2] at hB
        have hr1 : raw1 = "None" := string_data_inj hB
        rw [hb1] at h1b
        rw [hr1] at h1b
        exact absurd h1b (by decide)
      | some raw2 =>
        rw [hb1, hb2] at hB
        exact congrArg some (string_data_inj hB)
  have hJ1c : ',' ∉ [' ', 'p', 'h', 'o', 'n', 'e', 's', ':', ' '] ++ (joinSemis r1.phones).data := by
    intro hmem
    rcases List.mem_append.mp hmem with hm | hm
    · exact absurd hm (by decide)
    · exact join_no_comma h1p hm
  have hJ2c : ',' ∉ [' ', 'p', 'h', 'o', 'n', 'e', 's', ':', ' '] ++ (joinSemis r2.phones).data := by
    intro hmem
    rcases List.mem_append.mp hmem with hm | hm
    · exact absurd hm (by decide)
    · exact join_no_comma h2p hm
  obtain ⟨hN, hJ⟩ := split_at_last _ _ _ _ hJ1c hJ2c hX
  have hname : r1.name = r2.name := string_data_inj hN
  have hJoin : joinSemis r1.phones = joinSemis r2.phones :=
    string_data_inj (List.append_cancel_left hJ)
  have hph : r1.phones = r2.phones :=
    joinSemis_inj r1.phones r2.phones (fun p hp => (h1p p hp).1)
      (fun p hp => (h2p p hp).1) hJoin
  calc r1 = ⟨r1.name, r1.phones, r1.birthday⟩ := rfl
    _ = ⟨r2.name, r2.phones, r2.birthday⟩ := by rw [hname, hph, hbd]
    _ = r2 := rfl

/-- Claim C9, witness: the theorem applied at two concrete equal
renderings. -/
theorem C9_witness :
    (⟨"Ann", ["0123456789"], some "29.02.2024"⟩ : Record)
      = ⟨"Ann", ["0123456789"], some "29.02.2024"⟩ :=
  C9_roundtrip ⟨"Ann", ["0123456789"], some "29.02.2024"⟩
    ⟨"Ann", ["0123456789"], some "29.02.2024"⟩
    (by decide) (by decide) (by decide) (by decide) rfl

end ContactsHW
